import Mathlib

/-!
Verification development for the y-sqlite3 persistence provider
(`src/y-better-sqlite3.ts`): a SQLite-backed update log with compaction
for Yjs documents.

The embedding models
- the two tables of a database file (`updates`, `custom`) as a `Store`;
- the `SqlitePersistence` in-memory session object as a `Session`;
- the Yjs document/merge engine as a black box `YModel` (the spec treats
  it as an external collaborator with the contract that a full-state
  encoding applied to an empty document reconstructs the state);
- `fetchUpdates` with its two caller-supplied hooks, returning an event
  trace so that hook ordering and multiplicity can be stated;
- `storeState` and its compaction transaction, with an explicit
  crash-observability function for the all-or-nothing transaction
  semantics of better-sqlite3;
- the constructor, `destroy`, `get`/`set`/`del`, the update handler,
  and the module-level `clearDocument` utility over a small file-system
  model.
-/

namespace YSqlite

/-- Byte sequences (the contents of a `Uint8Array` / SQLite BLOB). -/
abbrev Bytes := List Nat

/-- A row of the `updates` table:
`id INTEGER PRIMARY KEY AUTOINCREMENT, docName TEXT, data BLOB`. -/
structure UpdateRow where
  id : Nat
  docName : String
  data : Bytes
deriving Repr, DecidableEq

/-- A row of the `custom` table: `docName TEXT, key TEXT, value TEXT`,
primary key `(docName, key)`. -/
structure CustomRow where
  docName : String
  key : String
  value : String
deriving Repr, DecidableEq

/-- One database file: both tables plus the AUTOINCREMENT counter.
SQLite hands out ids starting at 1; `updates` holds the rows in
insertion order. -/
structure Store where
  updates : List UpdateRow
  custom : List CustomRow
  nextId : Nat
deriving Repr, DecidableEq

/-- A freshly created database file (after the schema `exec`). -/
def Store.emptyStore : Store := ⟨[], [], 1⟩

/-- `SELECT COUNT(*) as count FROM updates WHERE docName = ?`. -/
def countRows (s : Store) (n : String) : Nat :=
  (s.updates.filter (fun r => decide (r.docName = n))).length

/-- Insertion of one row into a list kept ascending by `id`. -/
def insertById (r : UpdateRow) : List UpdateRow → List UpdateRow
  | [] => [r]
  | x :: xs => if r.id ≤ x.id then r :: x :: xs else x :: insertById r xs

/-- Sort rows ascending by `id` (the `ORDER BY id` of the scan query). -/
def sortById (l : List UpdateRow) : List UpdateRow :=
  l.foldr insertById []

/-- `SELECT id, data FROM updates WHERE docName = ? AND id > ? ORDER BY id`. -/
def scanSince (s : Store) (n : String) (cursor : Nat) : List UpdateRow :=
  sortById (s.updates.filter (fun r => decide (r.docName = n ∧ cursor < r.id)))

/-- `INSERT INTO updates (docName, data) VALUES (?, ?)`; returns the new
store and the `lastInsertRowid`. -/
def insertRow (s : Store) (n : String) (d : Bytes) : Store × Nat :=
  (⟨s.updates ++ [⟨s.nextId, n, d⟩], s.custom, s.nextId + 1⟩, s.nextId)

/-- `DELETE FROM updates WHERE docName = ? AND id < ?`. -/
def deleteBefore (s : Store) (n : String) (bound : Nat) : Store :=
  ⟨s.updates.filter (fun r => !decide (r.docName = n ∧ r.id < bound)),
   s.custom, s.nextId⟩

/-- `SELECT value FROM custom WHERE docName = ? AND key = ?`. -/
def getValue (s : Store) (n k : String) : Option String :=
  (s.custom.find? (fun c => decide (c.docName = n ∧ c.key = k))).map (·.value)

/-- `INSERT OR REPLACE INTO custom (docName, key, value) VALUES (?, ?, ?)`. -/
def putValue (s : Store) (n k v : String) : Store :=
  ⟨s.updates,
   s.custom.filter (fun c => !decide (c.docName = n ∧ c.key = k)) ++ [⟨n, k, v⟩],
   s.nextId⟩

/-- `DELETE FROM custom WHERE docName = ? AND key = ?`. -/
def deleteValue (s : Store) (n k : String) : Store :=
  ⟨s.updates, s.custom.filter (fun c => !decide (c.docName = n ∧ c.key = k)),
   s.nextId⟩

/-- Well-formedness of a store as produced by the operations above:
rows are in strictly ascending `id` order, every id is positive (SQLite
AUTOINCREMENT starts at 1) and below the counter, and the counter is
at least 1. -/
def Store.WF (s : Store) : Prop :=
  s.updates.Pairwise (fun a b => a.id < b.id) ∧
  (∀ r ∈ s.updates, 0 < r.id ∧ r.id < s.nextId) ∧
  1 ≤ s.nextId

instance (s : Store) : Decidable s.WF := by
  unfold Store.WF; infer_instance

/-- The document/merge engine, excluded from the core as a black box
(spec section 1): opaque fragments, an empty document, fragment
application, and a full-state encoding such that applying the encoding
of a document to the empty document reconstructs it. -/
structure YModel (Doc : Type) where
  emptyDoc : Doc
  applyUpdate : Doc → Bytes → Doc
  encodeStateAsUpdate : Doc → Bytes
  apply_encode : ∀ d, applyUpdate emptyDoc (encodeStateAsUpdate d) = d

/-- The in-memory `SqlitePersistence` object. `dbOpen` stands for
`this.db !== null`; the `whenSynced` promise is not modelled. -/
structure Session (Doc : Type) where
  name : String
  doc : Doc
  synced : Bool
  dbOpen : Bool
  dbref : Nat
  dbsize : Nat
  destroyed : Bool
  storeTimeout : Nat
  storeTimeoutId : Option Nat
  dbPath : String
  isSharedDb : Bool
  listenerOn : Bool
deriving Repr, DecidableEq

/-- Exported compaction threshold `PREFERRED_TRIM_SIZE`. -/
def PREFERRED_TRIM_SIZE : Nat := 500

/-- A caller-supplied hook: a JS closure over the persistence object,
able to read and write both the database and the session. -/
def Hook (Doc : Type) : Type := Store → Session Doc → Store × Session Doc

/-- The hook that does nothing (the default arguments of `fetchUpdates`). -/
def noopHook (Doc : Type) : Hook Doc := fun st p => (st, p)

/-- Observable events of one `fetchUpdates` call, in execution order. -/
inductive FetchEv where
  | beforeHook
  | applyFrag (r : UpdateRow)
  | afterHook
deriving Repr, DecidableEq

instance : BEq FetchEv := instBEqOfDecidableEq

/-- Whether an event is the application of a fragment to the document. -/
def FetchEv.isApply : FetchEv → Bool
  | .applyFrag _ => true
  | _ => false

/-- Result of a `fetchUpdates` call: the database, the session, and the
trace of hook firings and fragment applications in execution order. -/
structure FetchResult (Doc : Type) where
  store : Store
  session : Session Doc
  events : List FetchEv
deriving Repr, DecidableEq

/-- The module-level `fetchUpdates(persistence, before, after)`:
early-return when destroyed or the db handle is null; count the rows of
the partition; scan all rows past the cursor; fire the before hook only
when the count is 0; apply all scanned fragments inside a doc
transaction tagged with origin self; fire the after hook; advance the
cursor to the last scanned id if any rows were read; refresh the cached
size from a fresh count. -/
def fetchUpdates {Doc : Type} (M : YModel Doc) (st : Store) (p : Session Doc)
    (beforeApplyUpdatesCb : Hook Doc := noopHook Doc)
    (afterApplyUpdatesCb : Hook Doc := noopHook Doc) : FetchResult Doc :=
  if p.destroyed || !p.dbOpen then ⟨st, p, []⟩
  else
    let count := countRows st p.name
    let rows := scanSince st p.name p.dbref
    let bp := if count = 0 then beforeApplyUpdatesCb st p else (st, p)
    let p2 := { bp.2 with doc := rows.foldl (fun d r => M.applyUpdate d r.data) bp.2.doc }
    let ap := afterApplyUpdatesCb bp.1 p2
    let p4 := match rows.getLast? with
      | some r => { ap.2 with dbref := r.id }
      | none => ap.2
    let p5 := { p4 with dbsize := countRows ap.1 p4.name }
    ⟨ap.1, p5,
     (if count = 0 then [FetchEv.beforeHook] else []) ++
       rows.map FetchEv.applyFrag ++ [FetchEv.afterHook]⟩

/-- The body of the compaction transaction of `storeState`, cut after
`k` of its two statements: statement 1 is the snapshot `INSERT`,
statement 2 is the `DELETE` of all rows of the partition with
`id < newId` where `newId` is the insert's `lastInsertRowid`. -/
def compactStep (st : Store) (n : String) (fullState : Bytes) : Nat → Store
  | 0 => st
  | 1 => (insertRow st n fullState).1
  | _ + 2 => deleteBefore (insertRow st n fullState).1 n (insertRow st n fullState).2

/-- The committed compaction transaction (both statements ran). -/
def compactTxn (st : Store) (n : String) (fullState : Bytes) : Store :=
  compactStep st n fullState 2

/-- What a later reader of the database observes if execution stops
after `k` statements of the compaction transaction: better-sqlite3
wraps the body in a SQLite transaction with all-or-nothing semantics,
so an uncommitted prefix (`k < 2`) is rolled back to the original
store, and `k ≥ 2` means the commit happened. -/
def compactObservable (st : Store) (n : String) (fullState : Bytes) (k : Nat) : Store :=
  if k < 2 then st else compactTxn st n fullState

/-- The module-level `storeState(persistence, forceStore = true)`:
first drain pending rows with `fetchUpdates` (default hooks), then, if
still live and either forced or the cached size reached
`PREFERRED_TRIM_SIZE`, run the compaction transaction on the full-state
encoding of the document and refresh the cached size. -/
def storeState {Doc : Type} (M : YModel Doc) (st : Store) (p : Session Doc)
    (forceStore : Bool := true) : Store × Session Doc :=
  let r := fetchUpdates M st p
  if !r.session.dbOpen || r.session.destroyed then (r.store, r.session)
  else if forceStore || PREFERRED_TRIM_SIZE ≤ r.session.dbsize then
    let fullState := M.encodeStateAsUpdate r.session.doc
    let st2 := compactTxn r.store r.session.name fullState
    (st2, { r.session with dbsize := countRows st2 r.session.name })
  else (r.store, r.session)

/-- Replay a partition from scratch: all rows of the partition in
ascending id order, applied to the empty document (the data-model
invariant of spec section 3). -/
def reconstruct {Doc : Type} (M : YModel Doc) (st : Store) (n : String) : Doc :=
  (scanSince st n 0).foldl (fun d r => M.applyUpdate d r.data) M.emptyDoc

/-- The `beforeApplyUpdatesCallback` closure of `_initialize`: if the
session is still live, write the full-state encoding of the document as
the very first row of the partition. -/
def initBeforeHook {Doc : Type} (M : YModel Doc) : Hook Doc := fun st p =>
  if p.dbOpen && !p.destroyed then
    ((insertRow st p.name (M.encodeStateAsUpdate p.doc)).1, p)
  else (st, p)

/-- The `afterApplyUpdatesCallback` closure of `_initialize`: if the
session is still live, set the synced flag (and emit the synced event,
resolving `whenSynced`; the event plumbing is not modelled beyond the
flag). -/
def initAfterHook {Doc : Type} : Hook Doc := fun st p =>
  if p.destroyed then (st, p) else (st, { p with synced := true })

/-- The private `_initialize` method, run on the microtask after
construction: early-return when the db handle is null or the session is
destroyed, otherwise `fetchUpdates` with the two closures above. -/
def initPersistence {Doc : Type} (M : YModel Doc) (st : Store) (p : Session Doc) :
    FetchResult Doc :=
  if !p.dbOpen || p.destroyed then ⟨st, p, []⟩
  else fetchUpdates M st p (initBeforeHook M) initAfterHook

/-- The pool of live timers: ids handed out by `setTimeout` that have
neither fired nor been cleared, plus a fresh-id counter. -/
structure Timers where
  active : List Nat
  next : Nat
deriving Repr, DecidableEq

/-- `setTimeout`: registers a new live timer and returns its id. -/
def setTimeoutT (tm : Timers) : Timers × Nat :=
  (⟨tm.active ++ [tm.next], tm.next + 1⟩, tm.next)

/-- `clearTimeout`: removes a timer id from the live pool. -/
def clearTimeoutT (tm : Timers) (id : Nat) : Timers :=
  ⟨tm.active.filter (fun i => decide (i ≠ id)), tm.next⟩

/-- The `_storeUpdate` document-update handler registered by the
constructor: on a fragment whose origin is not the session itself,
while the db is open and the session not destroyed, insert the fragment
into the partition, bump the cached size, and if the size reached the
threshold (re)start the debounced compaction timer (the timer callback
runs `storeState(this, false)`; its later firing is not part of this
step). Otherwise the notification is silently ignored. -/
def storeUpdateHandler {Doc : Type} (st : Store) (p : Session Doc) (tm : Timers)
    (update : Bytes) (originIsSelf : Bool) : Store × Session Doc × Timers :=
  if p.dbOpen && !originIsSelf && !p.destroyed then
    let st1 := (insertRow st p.name update).1
    let p1 := { p with dbsize := p.dbsize + 1 }
    if PREFERRED_TRIM_SIZE ≤ p1.dbsize then
      let tm1 := match p1.storeTimeoutId with
        | some id => clearTimeoutT tm id
        | none => tm
      let tmNew := setTimeoutT tm1
      (st1, { p1 with storeTimeoutId := some tmNew.2 }, tmNew.1)
    else (st1, p1, tm)
  else (st, p, tm)

/-- The `destroy()` method: clear a pending compaction timer (the
source clears the timeout but leaves `_storeTimeoutId` set), detach the
document-update listener, set the destroyed flag, and close and null
the db handle if open. -/
def destroy {Doc : Type} (p : Session Doc) (tm : Timers) : Session Doc × Timers :=
  let tm1 := match p.storeTimeoutId with
    | some id => clearTimeoutT tm id
    | none => tm
  let p1 := { p with listenerOn := false, destroyed := true }
  let p2 := if p1.dbOpen then { p1 with dbOpen := false } else p1
  (p2, tm1)

/-- Result of `get`: `none` is the absent sentinel (`undefined`);
`some (Sum.inl v)` is a successfully deserialized value; and
`some (Sum.inr s)` is the raw stored string returned when
deserialization failed. -/
abbrev GetResult (V : Type) : Type := Option (V ⊕ String)

/-- The `get(key)` method, parameterized by the JSON deserializer
`jp` (`JSON.parse`, a black box external to this core): absent sentinel
when destroyed, the db is closed, or no row exists; otherwise the
parsed value, falling back to the raw stored text when parsing throws. -/
def getCustom {Doc V : Type} (jp : String → Option V) (st : Store) (p : Session Doc)
    (key : String) : GetResult V :=
  if !p.dbOpen || p.destroyed then none
  else
    match getValue st p.name key with
    | none => none
    | some s =>
      match jp s with
      | some v => some (Sum.inl v)
      | none => some (Sum.inr s)

/-- The `set(key, value)` method, parameterized by the JSON serializer:
upsert under `(docName, key)`, a no-op once destroyed or closed. -/
def setCustom {Doc : Type} (serialized : String) (st : Store) (p : Session Doc)
    (key : String) : Store :=
  if !p.dbOpen || p.destroyed then st
  else putValue st p.name key serialized

/-- The `del(key)` method: delete the `(docName, key)` row, a no-op
once destroyed or closed. -/
def delCustom {Doc : Type} (st : Store) (p : Session Doc) (key : String) : Store :=
  if !p.dbOpen || p.destroyed then st
  else deleteValue st p.name key

/-- Constructor options (`dir` and `dbPath`). `none` models an omitted
option; note that the source tests the options with JS truthiness, so a
supplied empty string behaves as if omitted. -/
structure SqliteOptions where
  dir : Option String := none
  dbPath : Option String := none
deriving Repr, DecidableEq

/-- JS truthiness of an optional string option. -/
def truthy : Option String → Bool
  | some s => !decide (s = "")
  | none => false

/-- The configuration error thrown by the constructor. -/
inductive ConfigError where
  | bothDirAndDbPath
deriving Repr, DecidableEq

/-- The file-system surface the module touches: existing directories
and database files by path. -/
structure FileSys where
  dirs : List String
  files : List (String × Store)
deriving Repr, DecidableEq

/-- Side effects of the constructor on the world outside the process. -/
inductive FsEv where
  | mkdirEv (d : String)
  | openDbEv (p : String)
  | execSchemaEv
deriving Repr, DecidableEq

/-- `path.join(dir, file)` for the simple shapes the module produces. -/
def pathJoin (dir file : String) : String := dir ++ "/" ++ file

/-- Split a character list on the path separator. -/
def splitSlash : List Char → List (List Char)
  | [] => [[]]
  | c :: cs =>
    let rest := splitSlash cs
    if c = '/' then [] :: rest
    else
      match rest with
      | [] => [[c]]
      | h :: t => (c :: h) :: t

/-- Join character-list path segments with the separator. -/
def joinSlash : List (List Char) → List Char
  | [] => []
  | [x] => x
  | x :: xs => x ++ '/' :: joinSlash xs

/-- `path.dirname` for the simple path shapes the module produces:
everything before the last separator, `.` when there is none. -/
def dirnameOf (p : String) : String :=
  let parts := splitSlash p.data
  if parts.length ≤ 1 then "." else String.mk (joinSlash parts.dropLast)

/-- Look up a database file. -/
def lookupFile (fs : FileSys) (p : String) : Option Store :=
  (fs.files.find? (fun e => decide (e.1 = p))).map (·.2)

/-- Replace the store of an existing database file. -/
def setFile (fs : FileSys) (p : String) (st : Store) : FileSys :=
  ⟨fs.dirs, fs.files.map (fun e => if e.1 = p then (p, st) else e)⟩

/-- `new Database(path)` followed by the schema `exec`: opens the file,
creating an empty database when absent (the schema statements are all
`IF NOT EXISTS`, so an existing file is untouched). -/
def openDatabase (fs : FileSys) (p : String) : FileSys :=
  match lookupFile fs p with
  | some _ => fs
  | none => ⟨fs.dirs, fs.files ++ [(p, Store.emptyStore)]⟩

/-- The `SqlitePersistence` constructor: throw `ConfigError` when both
options are supplied (JS truthiness) before touching the file system;
otherwise derive the db path and mode, create the parent directory if
missing, open/create the database, run the schema, register the update
listener, and return the session with cursor 0, size 0, not synced
(`_initialize` is deferred to a microtask and is a separate step). The
call returns the outcome, the file system after the call, and the trace
of file-system effects in order. -/
def construct {Doc : Type} (name : String) (doc : Doc) (opts : SqliteOptions)
    (fs : FileSys) : Except ConfigError (Session Doc) × FileSys × List FsEv :=
  if truthy opts.dir && truthy opts.dbPath then
    (Except.error ConfigError.bothDirAndDbPath, fs, [])
  else
    let mode :=
      if truthy opts.dbPath then (opts.dbPath.getD "", true)
      else if truthy opts.dir then (pathJoin (opts.dir.getD "") (name ++ ".sqlite"), false)
      else (name ++ ".sqlite", false)
    let d := dirnameOf mode.1
    let made :=
      if !decide (d = "") && !decide (d = ".") && !fs.dirs.contains d then
        ((⟨fs.dirs ++ [d], fs.files⟩ : FileSys), [FsEv.mkdirEv d])
      else (fs, ([] : List FsEv))
    let fs2 := openDatabase made.1 mode.1
    (Except.ok
      { name := name, doc := doc, synced := false, dbOpen := true, dbref := 0,
        dbsize := 0, destroyed := false, storeTimeout := 1000,
        storeTimeoutId := none, dbPath := mode.1, isSharedDb := mode.2,
        listenerOn := true },
     fs2, made.2 ++ [FsEv.openDbEv mode.1, FsEv.execSchemaEv])

/-- Argument of the module-level `clearDocument`: omitted, a directory
string (exclusive mode), or `\x7b dbPath \x7d` (shared mode). -/
inductive ClearArg where
  | omitted
  | dirArg (d : String)
  | sharedArg (dbPath : String)
deriving Repr, DecidableEq

/-- The module-level `clearDocument(name, dirOrOptions)`: in shared
mode, if the file exists, delete the update rows and custom rows of
that `docName` and close, leaving the file in place; in exclusive mode,
delete the file derived from the document name when present. Either
mode is a silent no-op when the target does not exist. -/
def clearDocument (name : String) (arg : ClearArg) (fs : FileSys) : FileSys :=
  match arg with
  | .sharedArg p =>
    match lookupFile fs p with
    | some st =>
      setFile fs p
        ⟨st.updates.filter (fun r => !decide (r.docName = name)),
         st.custom.filter (fun c => !decide (c.docName = name)),
         st.nextId⟩
    | none => fs
  | .dirArg d =>
    let dbFilePath := if d = "" then name ++ ".sqlite" else pathJoin d (name ++ ".sqlite")
    ⟨fs.dirs, fs.files.filter (fun e => decide (e.1 ≠ dbFilePath))⟩
  | .omitted =>
    ⟨fs.dirs, fs.files.filter (fun e => decide (e.1 ≠ name ++ ".sqlite"))⟩

/-- A concrete instance of the document-model black box, used by the
witness theorems: a document is its own full-state encoding, and
applying an encoding to the empty document installs it. -/
def listModel : YModel Bytes where
  emptyDoc := []
  applyUpdate d u := if d = [] then u else d ++ u
  encodeStateAsUpdate d := d
  apply_encode := by intro d; simp

/-- A live session over an exclusive file, used by concrete witnesses. -/
def sampleSession : Session Bytes :=
  { name := "doc", doc := [], synced := false, dbOpen := true, dbref := 0,
    dbsize := 0, destroyed := false, storeTimeout := 1000,
    storeTimeoutId := none, dbPath := "doc.sqlite", isSharedDb := false,
    listenerOn := true }

/-- A store whose `doc` partition holds a single snapshot row. -/
def oneRowStore : Store := ⟨[⟨1, "doc", [7]⟩], [], 2⟩

/-- A store whose `doc` partition holds two fragment rows. -/
def twoRowStore : Store := ⟨[⟨1, "doc", [1]⟩, ⟨2, "doc", [2]⟩], [], 3⟩

/-- A store holding one metadata row for the `doc` partition. -/
def customStore : Store := ⟨[], [⟨"doc", "k", "one"⟩], 1⟩

/-- A concrete deserializer standing in for `JSON.parse` in witnesses:
succeeds exactly on the text `one`. -/
def jpSample : String → Option Nat := fun s => if s = "one" then some 1 else none

/-- A live session with a pending compaction timer, for witnesses. -/
def timerSession : Session Bytes := { sampleSession with storeTimeoutId := some 5 }

/-- A timer pool in which timer 5 is pending, for witnesses. -/
def sampleTimers : Timers := ⟨[5], 6⟩

/-- A shared database file holding two partitions, for witnesses. -/
def sharedStore : Store :=
  ⟨[⟨1, "doc", [1]⟩, ⟨2, "other", [2]⟩],
   [⟨"doc", "k", "v"⟩, ⟨"other", "k", "w"⟩], 3⟩

/-- A file system with one shared database file, for witnesses. -/
def fsSample : FileSys := ⟨[], [("s.db", sharedStore)]⟩

/-! ### Helper lemmas -/

theorem sortById_of_sorted {l : List UpdateRow}
    (h : l.Pairwise (fun a b => a.id < b.id)) : sortById l = l := by
  induction l with
  | nil => rfl
  | cons x xs ih =>
    rw [List.pairwise_cons] at h
    have hxs : sortById xs = xs := ih h.2
    show insertById x (sortById xs) = x :: xs
    rw [hxs]
    cases xs with
    | nil => rfl
    | cons y ys =>
      show (if x.id ≤ y.id then x :: y :: ys else y :: insertById x ys) = x :: y :: ys
      rw [if_pos (Nat.le_of_lt (h.1 y (List.mem_cons_self y ys)))]

theorem scanSince_eq_filter {st : Store} {n : String} {c : Nat}
    (hs : st.updates.Pairwise (fun a b => a.id < b.id)) :
    scanSince st n c = st.updates.filter (fun r => decide (r.docName = n ∧ c < r.id)) :=
  sortById_of_sorted (List.Pairwise.filter _ hs)

theorem id_le_of_getLast {l : List UpdateRow} {z : UpdateRow}
    (hs : l.Pairwise (fun a b => a.id < b.id)) (hz : l.getLast? = some z) :
    ∀ x ∈ l, x.id ≤ z.id := by
  induction l with
  | nil => simp at hz
  | cons a t ih =>
    cases t with
    | nil =>
      simp only [List.getLast?_singleton, Option.some.injEq] at hz
      subst hz
      intro x hx
      rw [List.mem_singleton] at hx
      exact hx ▸ Nat.le_refl _
    | cons b t2 =>
      rw [List.getLast?_cons_cons] at hz
      rw [List.pairwise_cons] at hs
      intro x hx
      rcases List.mem_cons.mp hx with hxa | hxt
      · subst hxa
        exact Nat.le_of_lt (Nat.lt_of_lt_of_le (hs.1 b (List.mem_cons_self b t2))
          (ih hs.2 hz b (List.mem_cons_self b t2)))
      · exact ih hs.2 hz x hxt

theorem scanSince_getLast_empty {st : Store} {n : String} {c : Nat}
    (hs : st.updates.Pairwise (fun a b => a.id < b.id)) :
    scanSince st n (((scanSince st n c).getLast?.map UpdateRow.id).getD c) = [] := by
  cases h : (scanSince st n c).getLast? with
  | none =>
    show scanSince st n ((Option.map UpdateRow.id none).getD c) = []
    simp only [Option.map, Option.getD]
    exact List.getLast?_eq_none_iff.mp h
  | some z =>
    show scanSince st n ((Option.map UpdateRow.id (some z)).getD c) = []
    simp only [Option.map, Option.getD]
    rw [scanSince_eq_filter hs] at h ⊢
    apply List.filter_eq_nil_iff.mpr
    intro r hr hcontra
    rw [decide_eq_true_iff] at hcontra
    obtain ⟨hdoc, hlt⟩ := hcontra
    have hzmem : z ∈ st.updates.filter (fun r => decide (r.docName = n ∧ c < r.id)) :=
      List.mem_of_mem_getLast? h
    have hz2 : z.docName = n ∧ c < z.id := by
      have := (List.mem_filter.mp hzmem).2
      rwa [decide_eq_true_iff] at this
    have hrmem : r ∈ st.updates.filter (fun r => decide (r.docName = n ∧ c < r.id)) :=
      List.mem_filter.mpr ⟨hr, by
        rw [decide_eq_true_iff]
        exact ⟨hdoc, Nat.lt_trans hz2.2 hlt⟩⟩
    exact absurd hlt (Nat.not_lt.mpr (id_le_of_getLast (List.Pairwise.filter _ hs) h r hrmem))

theorem compactTxn_nextId (st : Store) (n : String) (full : Bytes) :
    (compactTxn st n full).nextId = st.nextId + 1 := rfl

theorem compactTxn_updates (st : Store) (n : String) (full : Bytes) :
    (compactTxn st n full).updates =
      st.updates.filter (fun r => !decide (r.docName = n ∧ r.id < st.nextId)) ++
        [⟨st.nextId, n, full⟩] := by
  show ((st.updates ++ ([⟨st.nextId, n, full⟩] : List UpdateRow)).filter
      (fun r => !decide (r.docName = n ∧ r.id < st.nextId))) =
    st.updates.filter (fun r => !decide (r.docName = n ∧ r.id < st.nextId)) ++
      [⟨st.nextId, n, full⟩]
  rw [List.filter_append]
  simp

theorem scanSince_compactTxn {st : Store} {n : String} (full : Bytes) (hWF : st.WF) :
    scanSince (compactTxn st n full) n 0 = [⟨st.nextId, n, full⟩] := by
  obtain ⟨hs, hids, hnext⟩ := hWF
  show sortById (((compactTxn st n full).updates).filter
      (fun r => decide (r.docName = n ∧ 0 < r.id))) = _
  rw [compactTxn_updates, List.filter_append, List.filter_filter]
  have h1 : st.updates.filter
      (fun a => decide (a.docName = n ∧ 0 < a.id) &&
        !decide (a.docName = n ∧ a.id < st.nextId)) = [] := by
    apply List.filter_eq_nil_iff.mpr
    intro r hr
    by_cases hdn : r.docName = n
    · simp [hdn, (hids r hr).2]
    · simp [hdn]
  have h2 : ([⟨st.nextId, n, full⟩] : List UpdateRow).filter
      (fun r => decide (r.docName = n ∧ 0 < r.id)) = [⟨st.nextId, n, full⟩] := by
    simp [Nat.lt_of_lt_of_le Nat.zero_lt_one hnext]
  rw [h1, h2]
  rfl

theorem reconstruct_compactTxn {Doc : Type} (M : YModel Doc) {st : Store} {n : String}
    (d : Doc) (hWF : st.WF) :
    reconstruct M (compactTxn st n (M.encodeStateAsUpdate d)) n = d := by
  show (scanSince (compactTxn st n (M.encodeStateAsUpdate d)) n 0).foldl
      (fun d r => M.applyUpdate d r.data) M.emptyDoc = d
  rw [scanSince_compactTxn _ hWF]
  exact M.apply_encode d

theorem fetchUpdates_default_eq {Doc : Type} (M : YModel Doc) (st : Store)
    (p : Session Doc) :
    fetchUpdates M st p =
      if p.destroyed || !p.dbOpen then ⟨st, p, []⟩
      else
        ⟨st,
         { p with
             doc := (scanSince st p.name p.dbref).foldl
               (fun d r => M.applyUpdate d r.data) p.doc,
             dbref := (((scanSince st p.name p.dbref).getLast?).map UpdateRow.id).getD
               p.dbref,
             dbsize := countRows st p.name },
         (if countRows st p.name = 0 then [FetchEv.beforeHook] else []) ++
           (scanSince st p.name p.dbref).map FetchEv.applyFrag ++
             [FetchEv.afterHook]⟩ := by
  unfold fetchUpdates noopHook
  split
  · rfl
  · simp only [ite_self]
    cases h : (scanSince st p.name p.dbref).getLast? with
    | none => rfl
    | some r => rfl

theorem fetchUpdates_events {Doc : Type} (M : YModel Doc) (st : Store)
    (p : Session Doc) (b a : Hook Doc) (hd : p.destroyed = false)
    (ho : p.dbOpen = true) :
    (fetchUpdates M st p b a).events =
      (if countRows st p.name = 0 then [FetchEv.beforeHook] else []) ++
        (scanSince st p.name p.dbref).map FetchEv.applyFrag ++ [FetchEv.afterHook] := by
  unfold fetchUpdates
  rw [if_neg (by simp [hd, ho])]

theorem count_beforeHook_map (rows : List UpdateRow) :
    (rows.map FetchEv.applyFrag).count FetchEv.beforeHook = 0 := by
  rw [List.count_eq_zero]
  intro h
  rcases List.mem_map.mp h with ⟨r, _, hr⟩
  exact absurd hr (by simp)

theorem count_afterHook_map (rows : List UpdateRow) :
    (rows.map FetchEv.applyFrag).count FetchEv.afterHook = 0 := by
  rw [List.count_eq_zero]
  intro h
  rcases List.mem_map.mp h with ⟨r, _, hr⟩
  exact absurd hr (by simp)

theorem fetchUpdates_init_store_of_nonempty {Doc : Type} (M : YModel Doc)
    (st : Store) (p : Session Doc) (hd : p.destroyed = false) (ho : p.dbOpen = true)
    (hc : countRows st p.name ≠ 0) :
    (fetchUpdates M st p (initBeforeHook M) initAfterHook).store = st := by
  unfold fetchUpdates initAfterHook
  rw [if_neg (by simp [hd, ho])]
  simp only [if_neg hc]
  split <;> rfl

/-! ### Claim theorems -/

/-- C1 (amended with the live-session guard of the source): for every
`fetchUpdates` call on a non-destroyed session with an open store, the
caller-supplied before hook fires exactly once when the partition row
count is 0 at the start of the call and never otherwise; consequently,
re-running initialization (`_initialize`, the reopen path that writes
the initial snapshot from its before hook) on a partition that already
contains a row leaves the store exactly unchanged. -/
theorem fetchUpdates_before_hook_spec {Doc : Type} (M : YModel Doc) (st : Store)
    (p : Session Doc) (b a : Hook Doc) (hd : p.destroyed = false)
    (ho : p.dbOpen = true) :
    ((fetchUpdates M st p b a).events.count FetchEv.beforeHook =
        if countRows st p.name = 0 then 1 else 0)
    ∧ (countRows st p.name ≠ 0 → (initPersistence M st p).store = st) := by
  constructor
  · rw [fetchUpdates_events M st p b a hd ho]
    by_cases hc : countRows st p.name = 0 <;>
      simp [hc, List.count_append, count_beforeHook_map]
  · intro hc
    unfold initPersistence
    rw [if_neg (by simp [hd, ho])]
    exact fetchUpdates_init_store_of_nonempty M st p hd ho hc

/-- C1 witness: on a one-row partition the before hook does not fire
and reopening adds nothing. -/
theorem fetchUpdates_before_hook_spec_witness :
    ((fetchUpdates listModel oneRowStore sampleSession (noopHook Bytes)
        (noopHook Bytes)).events.count FetchEv.beforeHook =
      if countRows oneRowStore sampleSession.name = 0 then 1 else 0)
    ∧ (countRows oneRowStore sampleSession.name ≠ 0 →
        (initPersistence listModel oneRowStore sampleSession).store = oneRowStore) :=
  fetchUpdates_before_hook_spec listModel oneRowStore sampleSession
    (noopHook Bytes) (noopHook Bytes) rfl rfl

/-- C1 counterexample to the claim as stated: a `fetchUpdates` call on
an already-destroyed session over an empty partition has row count 0
at the start of the call, yet the before hook is not invoked at all
(the source returns before reaching it), so the hook does not fire
exactly once on every such call. `sampleSession.name` is `doc`. -/
theorem fetchUpdates_before_hook_destroyed_cx :
    countRows Store.emptyStore "doc" = 0 ∧
    ¬ ((fetchUpdates listModel Store.emptyStore
        { sampleSession with destroyed := true }).events.count FetchEv.beforeHook = 1) := by
  decide

/-- C2: the compaction transaction run by `storeState` (its body is
`compactTxn`, invoked on the full-state encoding of the current
document) inserts the snapshot row and deletes exactly the rows of the
same partition with strictly smaller id, and every store reachable by
stopping after `k` of its statements is, thanks to the transaction
rollback, either the original store or the fully committed one — never
a state with the old rows gone but the snapshot missing — and in both
cases the partition still reconstructs the document state. -/
theorem storeState_compaction_atomic {Doc : Type} (M : YModel Doc) (st : Store)
    (n : String) (d : Doc) (k : Nat) (hWF : st.WF)
    (hrec : reconstruct M st n = d) :
    (compactObservable st n (M.encodeStateAsUpdate d) k = st ∨
      compactObservable st n (M.encodeStateAsUpdate d) k =
        compactTxn st n (M.encodeStateAsUpdate d))
    ∧ reconstruct M (compactObservable st n (M.encodeStateAsUpdate d) k) n = d
    ∧ (compactTxn st n (M.encodeStateAsUpdate d)).updates =
        st.updates.filter (fun r => !decide (r.docName = n ∧ r.id < st.nextId)) ++
          [⟨st.nextId, n, M.encodeStateAsUpdate d⟩] := by
  refine ⟨?_, ?_, compactTxn_updates st n _⟩
  · unfold compactObservable
    by_cases hk : k < 2
    · rw [if_pos hk]; exact Or.inl rfl
    · rw [if_neg hk]; exact Or.inr rfl
  · unfold compactObservable
    by_cases hk : k < 2
    · rw [if_pos hk]; exact hrec
    · rw [if_neg hk]; exact reconstruct_compactTxn M d hWF

/-- C2 witness: a crash after the first statement (`k = 1`) of a
compaction of a one-row partition rolls back to the original store,
which still reconstructs the document. -/
theorem storeState_compaction_atomic_witness :
    oneRowStore.WF ∧
    ((compactObservable oneRowStore "doc" (listModel.encodeStateAsUpdate [7]) 1 =
          oneRowStore ∨
        compactObservable oneRowStore "doc" (listModel.encodeStateAsUpdate [7]) 1 =
          compactTxn oneRowStore "doc" (listModel.encodeStateAsUpdate [7]))
      ∧ reconstruct listModel
          (compactObservable oneRowStore "doc" (listModel.encodeStateAsUpdate [7]) 1)
          "doc" = [7]
      ∧ (compactTxn oneRowStore "doc" (listModel.encodeStateAsUpdate [7])).updates =
          oneRowStore.updates.filter
            (fun r => !decide (r.docName = "doc" ∧ r.id < oneRowStore.nextId)) ++
            [⟨oneRowStore.nextId, "doc", listModel.encodeStateAsUpdate [7]⟩]) :=
  ⟨by decide,
   storeState_compaction_atomic listModel oneRowStore "doc" [7] 1 (by decide) (by decide)⟩

/-- C5 (amended with the live-session guard of the source): on every
`fetchUpdates` call on a non-destroyed session with an open store, the
after hook fires exactly once (even with zero fragments), it is the
last event, and the before hook, when it fires, is the first event —
hence strictly before every fragment application and before the after
hook. -/
theorem fetchUpdates_hook_order {Doc : Type} (M : YModel Doc) (st : Store)
    (p : Session Doc) (b a : Hook Doc) (hd : p.destroyed = false)
    (ho : p.dbOpen = true) :
    (fetchUpdates M st p b a).events.count FetchEv.afterHook = 1
    ∧ (fetchUpdates M st p b a).events.getLast? = some FetchEv.afterHook
    ∧ (FetchEv.beforeHook ∈ (fetchUpdates M st p b a).events →
        (fetchUpdates M st p b a).events.head? = some FetchEv.beforeHook) := by
  rw [fetchUpdates_events M st p b a hd ho]
  refine ⟨?_, ?_, ?_⟩
  · by_cases hc : countRows st p.name = 0 <;>
      simp [hc, List.count_append, count_afterHook_map]
  · simp [List.getLast?_concat]
  · intro hmem
    by_cases hc : countRows st p.name = 0
    · simp [hc, List.singleton_append]
    · exfalso
      simp [hc] at hmem

/-- C5 witness: a live session over a two-row partition. -/
theorem fetchUpdates_hook_order_witness :
    (fetchUpdates listModel twoRowStore sampleSession (noopHook Bytes)
        (noopHook Bytes)).events.count FetchEv.afterHook = 1
    ∧ (fetchUpdates listModel twoRowStore sampleSession (noopHook Bytes)
        (noopHook Bytes)).events.getLast? = some FetchEv.afterHook
    ∧ (FetchEv.beforeHook ∈ (fetchUpdates listModel twoRowStore sampleSession
          (noopHook Bytes) (noopHook Bytes)).events →
        (fetchUpdates listModel twoRowStore sampleSession (noopHook Bytes)
          (noopHook Bytes)).events.head? = some FetchEv.beforeHook) :=
  fetchUpdates_hook_order listModel twoRowStore sampleSession
    (noopHook Bytes) (noopHook Bytes) rfl rfl

/-- C5 counterexample to the claim as stated: a `fetchUpdates` call on
a session whose store handle is closed fires the after hook zero
times, not exactly once. -/
theorem fetchUpdates_after_hook_closed_db_cx :
    (fetchUpdates listModel Store.emptyStore
      { sampleSession with dbOpen := false }).events.count FetchEv.afterHook = 0 := by
  decide

/-- Unfolding equation for `storeState` on a live session: the call is
the `fetchUpdates` result followed by the compaction transaction
exactly when forced or the refreshed partition count reached the
threshold. -/
theorem storeState_eq {Doc : Type} (M : YModel Doc) (st : Store) (p : Session Doc)
    (force : Bool) (hd : p.destroyed = false) (ho : p.dbOpen = true) :
    storeState M st p force =
      if force = true ∨ PREFERRED_TRIM_SIZE ≤ countRows st p.name then
        (compactTxn st p.name
          (M.encodeStateAsUpdate (fetchUpdates M st p).session.doc),
         { (fetchUpdates M st p).session with
             dbsize := countRows (compactTxn st p.name
               (M.encodeStateAsUpdate (fetchUpdates M st p).session.doc)) p.name })
      else (st, (fetchUpdates M st p).session) := by
  have hfe := fetchUpdates_default_eq M st p
  rw [if_neg (by simp [hd, ho])] at hfe
  unfold storeState
  rw [hfe]
  dsimp only
  rw [if_neg (show ¬(!p.dbOpen || p.destroyed) = true by simp [hd, ho])]
  by_cases hcond : (force = true ∨ PREFERRED_TRIM_SIZE ≤ countRows st p.name)
  · rw [if_pos hcond,
      if_pos (show (force || decide (PREFERRED_TRIM_SIZE ≤ countRows st p.name)) = true by
        rcases hcond with h | h
        · simp [h]
        · simp [h])]
  · rw [if_neg hcond,
      if_neg (show ¬(force || decide (PREFERRED_TRIM_SIZE ≤ countRows st p.name)) = true by
        simp only [Bool.or_eq_true, decide_eq_true_iff]
        exact hcond)]

/-- C3: on a live session, `storeState` first runs `fetchUpdates` and
then compacts exactly when forced or the refreshed partition row count
reached `PREFERRED_TRIM_SIZE`; when neither condition holds the store
is returned unchanged (no row inserted or deleted), and the store is
unchanged precisely in that case. -/
theorem storeState_threshold_spec {Doc : Type} (M : YModel Doc) (st : Store)
    (p : Session Doc) (force : Bool) (hd : p.destroyed = false)
    (ho : p.dbOpen = true) :
    ((force = true ∨ PREFERRED_TRIM_SIZE ≤ countRows st p.name) →
      storeState M st p force =
        (compactTxn st p.name
          (M.encodeStateAsUpdate (fetchUpdates M st p).session.doc),
         { (fetchUpdates M st p).session with
             dbsize := countRows (compactTxn st p.name
               (M.encodeStateAsUpdate (fetchUpdates M st p).session.doc)) p.name }))
    ∧ (¬(force = true ∨ PREFERRED_TRIM_SIZE ≤ countRows st p.name) →
        storeState M st p force = (st, (fetchUpdates M st p).session))
    ∧ ((storeState M st p force).1 = st ↔
        ¬(force = true ∨ PREFERRED_TRIM_SIZE ≤ countRows st p.name)) := by
  have he := storeState_eq M st p force hd ho
  refine ⟨fun hc => by rw [he, if_pos hc], fun hc => by rw [he, if_neg hc], ?_⟩
  by_cases hc : (force = true ∨ PREFERRED_TRIM_SIZE ≤ countRows st p.name)
  · rw [he, if_pos hc]
    constructor
    · intro h
      have hnid := congrArg Store.nextId h
      rw [compactTxn_nextId] at hnid
      exact absurd hnid (Nat.succ_ne_self st.nextId)
    · intro h
      exact absurd hc h
  · rw [he, if_neg hc]
    simpa using hc

/-- C3 witness: a live session on a one-row partition with `force`
false performs no compaction and leaves the store unchanged. -/
theorem storeState_threshold_spec_witness :
    sampleSession.destroyed = false ∧ sampleSession.dbOpen = true ∧
    storeState listModel oneRowStore sampleSession false =
      (oneRowStore, (fetchUpdates listModel oneRowStore sampleSession).session) :=
  ⟨rfl, rfl,
   (storeState_threshold_spec listModel oneRowStore sampleSession false rfl rfl).2.1
     (by decide)⟩

/-- C4: `fetchUpdates` is idempotent on a well-formed store: a second
call with the default no-op hooks and no intervening writes applies no
fragment to the document (no apply event, document unchanged) and
leaves the cursor and the cached row count unchanged. -/
theorem fetchUpdates_idempotent {Doc : Type} (M : YModel Doc) (st : Store)
    (p : Session Doc) (hWF : st.WF) :
    (fetchUpdates M (fetchUpdates M st p).store
        (fetchUpdates M st p).session).events.filter FetchEv.isApply = []
    ∧ (fetchUpdates M (fetchUpdates M st p).store
        (fetchUpdates M st p).session).session.doc =
      (fetchUpdates M st p).session.doc
    ∧ (fetchUpdates M (fetchUpdates M st p).store
        (fetchUpdates M st p).session).session.dbref =
      (fetchUpdates M st p).session.dbref
    ∧ (fetchUpdates M (fetchUpdates M st p).store
        (fetchUpdates M st p).session).session.dbsize =
      (fetchUpdates M st p).session.dbsize := by
  obtain ⟨hs, -, -⟩ := hWF
  by_cases hg : (p.destroyed || !p.dbOpen) = true
  · have h1 : fetchUpdates M st p = ⟨st, p, []⟩ := by
      rw [fetchUpdates_default_eq, if_pos hg]
    simp [h1]
  · rw [fetchUpdates_default_eq M st p, if_neg hg]
    dsimp only
    rw [fetchUpdates_default_eq, if_neg hg]
    dsimp only
    rw [scanSince_getLast_empty hs]
    by_cases hc : countRows st p.name = 0 <;> simp [hc, FetchEv.isApply]

/-- C4 witness: a two-row partition drained once is drained. -/
theorem fetchUpdates_idempotent_witness :
    twoRowStore.WF ∧
    ((fetchUpdates listModel (fetchUpdates listModel twoRowStore sampleSession).store
        (fetchUpdates listModel twoRowStore sampleSession).session).events.filter
        FetchEv.isApply = []
      ∧ (fetchUpdates listModel (fetchUpdates listModel twoRowStore sampleSession).store
          (fetchUpdates listModel twoRowStore sampleSession).session).session.doc =
        (fetchUpdates listModel twoRowStore sampleSession).session.doc
      ∧ (fetchUpdates listModel (fetchUpdates listModel twoRowStore sampleSession).store
          (fetchUpdates listModel twoRowStore sampleSession).session).session.dbref =
        (fetchUpdates listModel twoRowStore sampleSession).session.dbref
      ∧ (fetchUpdates listModel (fetchUpdates listModel twoRowStore sampleSession).store
          (fetchUpdates listModel twoRowStore sampleSession).session).session.dbsize =
        (fetchUpdates listModel twoRowStore sampleSession).session.dbsize) :=
  ⟨by decide, fetchUpdates_idempotent listModel twoRowStore sampleSession (by decide)⟩

/-- C10: `storeState` with the force argument omitted is `storeState`
with force true, and on a live session it always inserts the full-state
snapshot row (with the next id of the store) and trims the partition so
that every remaining row of the partition has an id at least that of
the snapshot, regardless of the row count. -/
theorem storeState_default_force_spec {Doc : Type} (M : YModel Doc) (st : Store)
    (p : Session Doc) (hd : p.destroyed = false) (ho : p.dbOpen = true) :
    storeState M st p = storeState M st p true
    ∧ (storeState M st p).1 =
        compactTxn st p.name
          (M.encodeStateAsUpdate (fetchUpdates M st p).session.doc)
    ∧ (⟨st.nextId, p.name,
          M.encodeStateAsUpdate (fetchUpdates M st p).session.doc⟩ : UpdateRow)
        ∈ (storeState M st p).1.updates
    ∧ ∀ r ∈ (storeState M st p).1.updates, r.docName = p.name → st.nextId ≤ r.id := by
  have he := storeState_eq M st p true hd ho
  rw [if_pos (Or.inl rfl)] at he
  have h1 : (storeState M st p).1 =
      compactTxn st p.name (M.encodeStateAsUpdate (fetchUpdates M st p).session.doc) := by
    rw [he]
  refine ⟨rfl, h1, ?_, ?_⟩
  · rw [h1, compactTxn_updates]
    exact List.mem_append.mpr (Or.inr (List.mem_singleton.mpr rfl))
  · intro r hr hname
    rw [h1, compactTxn_updates] at hr
    rcases List.mem_append.mp hr with h | h
    · have hkeep := (List.mem_filter.mp h).2
      rw [Bool.not_eq_true', decide_eq_false_iff_not] at hkeep
      exact Nat.le_of_not_lt fun hlt => hkeep ⟨hname, hlt⟩
    · rw [List.mem_singleton] at h
      subst h
      exact Nat.le_refl _

/-- C10 witness: a bare `storeState` on a live session over a two-row
partition compacts it. -/
theorem storeState_default_force_spec_witness :
    sampleSession.destroyed = false ∧
    (storeState listModel twoRowStore sampleSession).1 =
      compactTxn twoRowStore "doc"
        (listModel.encodeStateAsUpdate
          (fetchUpdates listModel twoRowStore sampleSession).session.doc) :=
  ⟨rfl, (storeState_default_force_spec listModel twoRowStore sampleSession rfl rfl).2.1⟩

theorem destroy_destroyed {Doc : Type} (p : Session Doc) (tm : Timers) :
    (destroy p tm).1.destroyed = true := by
  unfold destroy
  dsimp only
  split <;> rfl

theorem destroy_dbClosed {Doc : Type} (p : Session Doc) (tm : Timers) :
    (destroy p tm).1.dbOpen = false := by
  unfold destroy
  dsimp only
  split
  · rfl
  · next h => simpa using h

/-- C6: after `destroy`, `get` returns the absent sentinel, `set`,
`del` and the document-update handler leave the store, session and
timers untouched (they are total functions, hence never throw),
`destroy` is idempotent, and the pending compaction timer, if any, has
been cancelled. -/
theorem destroy_noops {Doc V : Type} (jp : String → Option V) (st : Store)
    (p : Session Doc) (tm : Timers) (key serialized : String) (u : Bytes)
    (originIsSelf : Bool) :
    getCustom jp st (destroy p tm).1 key = none
    ∧ setCustom serialized st (destroy p tm).1 key = st
    ∧ delCustom st (destroy p tm).1 key = st
    ∧ storeUpdateHandler st (destroy p tm).1 (destroy p tm).2 u originIsSelf =
        (st, (destroy p tm).1, (destroy p tm).2)
    ∧ destroy (destroy p tm).1 (destroy p tm).2 = destroy p tm
    ∧ (∀ tid, p.storeTimeoutId = some tid → tid ∉ (destroy p tm).2.active) := by
  have hd2 := destroy_destroyed p tm
  refine ⟨?_, ?_, ?_, ?_, ?_, ?_⟩
  · simp [getCustom, hd2]
  · simp [setCustom, hd2]
  · simp [delCustom, hd2]
  · simp [storeUpdateHandler, hd2]
  · cases hto : p.storeTimeoutId with
    | none =>
      by_cases hdb : p.dbOpen = true <;>
        simp [destroy, hto, hdb]
    | some tid =>
      by_cases hdb : p.dbOpen = true <;>
        simp [destroy, hto, hdb, clearTimeoutT, List.filter_filter, Bool.and_self]
  · intro tid htid
    unfold destroy
    dsimp only
    rw [htid]
    simp [clearTimeoutT]

/-- C6 witness: a destroyed session with a formerly pending timer. -/
theorem destroy_noops_witness :
    getCustom jpSample customStore (destroy timerSession sampleTimers).1 "k" = none
    ∧ setCustom "one" customStore (destroy timerSession sampleTimers).1 "k" = customStore
    ∧ delCustom customStore (destroy timerSession sampleTimers).1 "k" = customStore
    ∧ storeUpdateHandler customStore (destroy timerSession sampleTimers).1
        (destroy timerSession sampleTimers).2 [3] false =
        (customStore, (destroy timerSession sampleTimers).1,
          (destroy timerSession sampleTimers).2)
    ∧ destroy (destroy timerSession sampleTimers).1 (destroy timerSession sampleTimers).2 =
        destroy timerSession sampleTimers
    ∧ 5 ∉ (destroy timerSession sampleTimers).2.active := by
  have h := destroy_noops jpSample customStore timerSession sampleTimers "k" "one" [3] false
  exact ⟨h.1, h.2.1, h.2.2.1, h.2.2.2.1, h.2.2.2.2.1, h.2.2.2.2.2 5 rfl⟩

/-- C7 (amended to JS truthiness: the source checks the options with
`&&`, so a supplied empty string behaves as an omitted option): when
both options are supplied with non-empty values, the constructor throws
the configuration error synchronously, the file system is untouched,
the trace of file-system effects is empty, and no session is created. -/
theorem construct_both_options_error {Doc : Type} (name : String) (doc : Doc)
    (opts : SqliteOptions) (fs : FileSys) (d pth : String)
    (hdir : opts.dir = some d) (hpath : opts.dbPath = some pth)
    (hd' : d ≠ "") (hp' : pth ≠ "") :
    construct name doc opts fs = (Except.error ConfigError.bothDirAndDbPath, fs, []) := by
  have ht1 : truthy opts.dir = true := by rw [hdir]; simp [truthy, hd']
  have ht2 : truthy opts.dbPath = true := by rw [hpath]; simp [truthy, hp']
  unfold construct
  rw [ht1, ht2]
  simp

/-- C7 witness: both options supplied non-empty. -/
theorem construct_both_options_error_witness :
    construct "a" ([] : Bytes) { dir := some "d", dbPath := some "s.db" }
        (⟨[], []⟩ : FileSys) =
      (Except.error ConfigError.bothDirAndDbPath, (⟨[], []⟩ : FileSys), []) :=
  construct_both_options_error "a" [] _ _ "d" "s.db" rfl rfl (by decide) (by decide)

/-- C7 counterexample to the claim as stated: supplying both options
with `dir` the empty string does not throw — the JS truthiness test
treats the empty string as absent, and a session is created (in shared
mode). -/
theorem construct_empty_dir_no_error_cx :
    (construct "a" ([] : Bytes) { dir := some "", dbPath := some "shared.db" }
      (⟨[], []⟩ : FileSys)).1.isOk = true := by
  decide

/-- C9: on a live session, `get` returns the absent sentinel when no
row is stored under the partition and key, the deserialized value when
the stored text parses, and the raw stored string when parsing fails. -/
theorem get_custom_spec {Doc V : Type} (jp : String → Option V) (st : Store)
    (p : Session Doc) (key : String) (hd : p.destroyed = false)
    (ho : p.dbOpen = true) :
    (getValue st p.name key = none → getCustom jp st p key = none)
    ∧ (∀ s, getValue st p.name key = some s →
        ((∀ v, jp s = some v → getCustom jp st p key = some (Sum.inl v))
          ∧ (jp s = none → getCustom jp st p key = some (Sum.inr s)))) := by
  have hguard : ¬(!p.dbOpen || p.destroyed) = true := by simp [hd, ho]
  constructor
  · intro h
    unfold getCustom
    rw [if_neg hguard, h]
  · intro s hs
    constructor
    · intro v hv
      unfold getCustom
      rw [if_neg hguard, hs]
      dsimp only
      rw [hv]
    · intro hn
      unfold getCustom
      rw [if_neg hguard, hs]
      dsimp only
      rw [hn]

/-- C9 witness: a stored metadata row whose text deserializes. -/
theorem get_custom_spec_witness :
    getValue customStore sampleSession.name "k" = some "one" ∧
    getCustom jpSample customStore sampleSession "k" = some (Sum.inl 1) :=
  ⟨rfl,
   ((get_custom_spec jpSample customStore sampleSession "k" rfl rfl).2 "one" rfl).1 1 rfl⟩

theorem find?_map_set (files : List (String × Store)) (p : String) (st2 : Store) :
    (files.map (fun e => if e.1 = p then (p, st2) else e)).find?
        (fun e => decide (e.1 = p)) =
      (files.find? (fun e => decide (e.1 = p))).map (fun _ => (p, st2)) := by
  induction files with
  | nil => rfl
  | cons e t ih =>
    by_cases h : e.1 = p
    · simp [List.find?_cons, h]
    · simp [List.find?_cons, h, ih]

theorem find?_map_other (files : List (String × Store)) (p : String) (st2 : Store)
    (q : String) (hq : q ≠ p) :
    (files.map (fun e => if e.1 = p then (p, st2) else e)).find?
        (fun e => decide (e.1 = q)) =
      files.find? (fun e => decide (e.1 = q)) := by
  induction files with
  | nil => rfl
  | cons e t ih =>
    by_cases h : e.1 = p
    · simp [List.find?_cons, h, Ne.symm hq, ih]
    · simp [List.find?_cons, h, ih]

theorem find?_filter_ne (files : List (String × Store)) (pth q : String)
    (hq : q ≠ pth) :
    (files.filter (fun e => decide (e.1 ≠ pth))).find? (fun e => decide (e.1 = q)) =
      files.find? (fun e => decide (e.1 = q)) := by
  induction files with
  | nil => rfl
  | cons e t ih =>
    rw [List.filter_cons]
    by_cases h : e.1 = pth
    · rw [if_neg (by simp [h]), ih,
        List.find?_cons_of_neg _ (by simp [h, Ne.symm hq])]
    · rw [if_pos (by simp [h])]
      by_cases h2 : e.1 = q
      · rw [List.find?_cons_of_pos _ (by simp [h2]),
          List.find?_cons_of_pos _ (by simp [h2])]
      · rw [List.find?_cons_of_neg _ (by simp [h2]),
          List.find?_cons_of_neg _ (by simp [h2]), ih]

theorem filter_docName_keep {α : Type} (f : α → String) (l : List α) (nm m : String)
    (h : m ≠ nm) :
    (l.filter (fun r => !decide (f r = nm))).filter (fun r => decide (f r = m)) =
      l.filter (fun r => decide (f r = m)) := by
  rw [List.filter_filter]
  apply List.filter_congr
  intro r _
  by_cases hr : f r = m
  · simp [hr, h]
  · simp [hr]

/-- C8: `clearDocument` in shared-file mode replaces the store of the
target file (when it exists) with one in which exactly the update rows
and metadata rows of the given document name are gone — the rows of
every other document name are untouched, the file itself stays present,
and other files are untouched; when the shared file does not exist the
call changes nothing. In exclusive-file mode it removes the file
derived from the document name, leaves every other file untouched, and
is a silent no-op (a total function, not an error) when that file is
absent. -/
theorem clearDocument_spec (name p d : String) (fs : FileSys) :
    (∀ st, lookupFile fs p = some st →
        lookupFile (clearDocument name (ClearArg.sharedArg p) fs) p =
          some ⟨st.updates.filter (fun r => !decide (r.docName = name)),
                st.custom.filter (fun c => !decide (c.docName = name)),
                st.nextId⟩)
    ∧ (lookupFile fs p = none → clearDocument name (ClearArg.sharedArg p) fs = fs)
    ∧ (∀ q, q ≠ p →
        lookupFile (clearDocument name (ClearArg.sharedArg p) fs) q = lookupFile fs q)
    ∧ (∀ (stx : Store) m, m ≠ name →
        (stx.updates.filter (fun r => !decide (r.docName = name))).filter
            (fun r => decide (r.docName = m)) =
          stx.updates.filter (fun r => decide (r.docName = m))
        ∧ (stx.custom.filter (fun c => !decide (c.docName = name))).filter
            (fun c => decide (c.docName = m)) =
          stx.custom.filter (fun c => decide (c.docName = m)))
    ∧ lookupFile (clearDocument name (ClearArg.dirArg d) fs)
        (if d = "" then name ++ ".sqlite" else pathJoin d (name ++ ".sqlite")) = none
    ∧ (∀ q, q ≠ (if d = "" then name ++ ".sqlite" else pathJoin d (name ++ ".sqlite")) →
        lookupFile (clearDocument name (ClearArg.dirArg d) fs) q = lookupFile fs q)
    ∧ (lookupFile fs (if d = "" then name ++ ".sqlite"
          else pathJoin d (name ++ ".sqlite")) = none →
        clearDocument name (ClearArg.dirArg d) fs = fs) := by
  refine ⟨?_, ?_, ?_, ?_, ?_, ?_, ?_⟩
  · intro st hst
    unfold clearDocument
    dsimp only
    rw [hst]
    dsimp only
    unfold lookupFile setFile
    rw [find?_map_set]
    unfold lookupFile at hst
    cases hfind : fs.files.find? (fun e => decide (e.1 = p)) with
    | none =>
      rw [hfind] at hst
      exact absurd hst (by simp)
    | some e =>
      rw [hfind] at hst
      have h2 : e.2 = st := by simpa using hst
      simp [h2]
  · intro h
    unfold clearDocument
    dsimp only
    rw [h]
  · intro q hq
    cases hl : lookupFile fs p with
    | none =>
      unfold clearDocument
      dsimp only
      rw [hl]
    | some st =>
      unfold clearDocument
      dsimp only
      rw [hl]
      dsimp only
      unfold lookupFile setFile
      rw [find?_map_other _ _ _ _ hq]
  · intro stx m hm
    exact ⟨filter_docName_keep UpdateRow.docName stx.updates name m hm,
      filter_docName_keep CustomRow.docName stx.custom name m hm⟩
  · unfold clearDocument lookupFile
    dsimp only
    rw [List.find?_eq_none.mpr]
    · rfl
    · intro x hx
      have hmem := (List.mem_filter.mp hx).2
      rw [decide_eq_true_iff] at hmem
      simp [hmem]
  · intro q hq
    unfold clearDocument lookupFile
    dsimp only
    rw [find?_filter_ne _ _ _ hq]
  · intro h
    unfold clearDocument
    dsimp only
    unfold lookupFile at h
    have hnone : fs.files.find? (fun e =>
        decide (e.1 = if d = "" then name ++ ".sqlite"
          else pathJoin d (name ++ ".sqlite"))) = none := by
      cases hfind : fs.files.find? (fun e =>
          decide (e.1 = if d = "" then name ++ ".sqlite"
            else pathJoin d (name ++ ".sqlite"))) with
      | none => rfl
      | some e =>
        rw [hfind] at h
        exact absurd h (by simp)
    have hall := List.find?_eq_none.mp hnone
    have hfil : fs.files.filter (fun e =>
        decide (e.1 ≠ if d = "" then name ++ ".sqlite"
          else pathJoin d (name ++ ".sqlite"))) = fs.files := by
      apply List.filter_eq_self.mpr
      intro e he
      have := hall e he
      rw [decide_eq_true_iff] at this ⊢
      exact this
    rw [hfil]

/-- C8 witness: clearing partition `doc` of a two-partition shared file
removes exactly its rows, and exclusive-mode clearing empties the
derived path. -/
theorem clearDocument_spec_witness :
    lookupFile (clearDocument "doc" (ClearArg.sharedArg "s.db") fsSample) "s.db" =
      some ⟨[⟨2, "other", [2]⟩], [⟨"other", "k", "w"⟩], 3⟩
    ∧ lookupFile (clearDocument "doc" (ClearArg.dirArg "dd") fsSample)
        (pathJoin "dd" "doc.sqlite") = none := by
  have h := clearDocument_spec "doc" "s.db" "dd" fsSample
  constructor
  · rw [h.1 sharedStore rfl]
    decide
  · exact h.2.2.2.2.1

end YSqlite
